import Mathlib

/-!
# OpenQuizzer: verification of the quiz engine core

A shallow embedding of the OpenQuizzer quiz engine (`openquizzer.js`):
the numeric answer evaluator, the weighted sampler, the proficiency
model, the session state machine and the aggregate statistics engine,
with theorems checking the specification's claims against the code.

Modelling conventions:
* JavaScript numbers are modelled as rationals (`ℚ`), except where the
  source computes `Math.exp`, where reals (`ℝ`) are used.
* `Math.random()` outcomes are passed in explicitly: a stream of draws
  for the weighted sampler and lists of Fisher-Yates swap choices for
  shuffles, so that theorems quantify over all outcomes of the draws.
* JavaScript objects used as string-keyed dictionaries are modelled as
  `String → Option _` lookups, or as association lists preserving key
  insertion order where the object is built up incrementally.
* Array accesses that would throw a `TypeError` in the source (reading
  a property of `undefined`) are modelled as no-ops; no claim depends
  on those paths.
-/

namespace OpenQuizzer

/-- The per-question `tolerance` field of a numeric question: the strings
`"exact"` and `"order-of-magnitude"`, a numeric fraction, or absent
(`undefined`). -/
inductive Tolerance where
  | exact
  | orderOfMagnitude
  | fraction (f : ℚ)
  | unspecified
deriving Repr, DecidableEq

/-- `checkNumericAnswer(userValue, correctValue, tolerance)`.  A failed
parse (JavaScript `NaN`, caught by the leading `isNaN` guard) is
modelled as `none`. -/
def checkNumericAnswer (userValue : Option ℚ) (correctValue : ℚ)
    (tolerance : Tolerance) : Bool :=
  match userValue with
  | none => false
  | some u =>
    if correctValue = 0 then decide (u = 0)
    else
      match tolerance with
      | .orderOfMagnitude =>
        let r := u / correctValue
        decide ((1 : ℚ)/10 ≤ r ∧ r ≤ 10)
      | .exact => decide (u = correctValue)
      | .fraction f => decide (|u - correctValue| / correctValue ≤ f)
      | .unspecified => decide (|u - correctValue| / correctValue ≤ 1/2)

/-- C3 counterexample: with target `-10` and tolerance `0.01` the code
accepts the answer `1000`, although the relative error
`|user − target| / |target|` is `101`, far above the tolerance: the
source divides by the signed target, not by its absolute value. -/
theorem checkNumericAnswer_neg_target_cex :
    checkNumericAnswer (some 1000) (-10) (.fraction (1/100)) = true ∧
    ¬ (|(1000 : ℚ) - (-10)| / |(-10 : ℚ)| ≤ 1/100) := by
  constructor
  · norm_num [checkNumericAnswer, abs_of_nonneg]
  · norm_num

/-- C3 (amended): numeric grading follows the per-question tolerance
policy, with the fraction and default clauses using the signed quantity
`|user − target| / target` (division by the target itself, not by its
absolute value): a non-numeric parse is always incorrect; a target of
exactly `0` is correct iff the user value is exactly `0`; `"exact"`
demands equality; `"order-of-magnitude"` accepts iff the ratio lies in
`[0.1, 10]` (boundaries included); a numeric fraction `f` accepts iff
`|user − target| / target ≤ f` (boundary included); no tolerance means
the same with bound `0.5`. -/
theorem checkNumericAnswer_policy (u c f : ℚ) (t : Tolerance) :
    (checkNumericAnswer none c t = false) ∧
    (c = 0 → (checkNumericAnswer (some u) c t = true ↔ u = 0)) ∧
    (c ≠ 0 → (checkNumericAnswer (some u) c .exact = true ↔ u = c)) ∧
    (c ≠ 0 → (checkNumericAnswer (some u) c .orderOfMagnitude = true ↔
      (1 : ℚ)/10 ≤ u / c ∧ u / c ≤ 10)) ∧
    (c ≠ 0 → (checkNumericAnswer (some u) c (.fraction f) = true ↔
      |u - c| / c ≤ f)) ∧
    (c ≠ 0 → (checkNumericAnswer (some u) c .unspecified = true ↔
      |u - c| / c ≤ 1/2)) := by
  refine ⟨rfl, ?_, ?_, ?_, ?_, ?_⟩ <;> intro hc <;>
    simp [checkNumericAnswer, hc]

/-- C3 witness: concrete instances of the policy clauses — target `5000`
with tolerance `0.01` accepts the parsed value `5000`, and the
order-of-magnitude boundary ratio `10` is accepted. -/
theorem checkNumericAnswer_policy_witness :
    (5000 : ℚ) ≠ 0 ∧
    (checkNumericAnswer (some 5000) 5000 (.fraction (1/100)) = true ↔
      |(5000 : ℚ) - 5000| / 5000 ≤ 1/100) ∧
    (checkNumericAnswer (some 50000) 5000 .orderOfMagnitude = true ↔
      (1 : ℚ)/10 ≤ 50000 / 5000 ∧ (50000 : ℚ) / 5000 ≤ 10) := by
  refine ⟨by norm_num, ?_, ?_⟩
  · exact (checkNumericAnswer_policy 5000 5000 (1/100) .unspecified).2.2.2.2.1
      (by norm_num)
  · exact (checkNumericAnswer_policy 50000 5000 0 .unspecified).2.2.2.1
      (by norm_num)

/-- One sub-stage of a two-stage question. -/
structure Stage where
  question : String := ""
  options : List String := []
  correct : Int := 0
deriving Repr, DecidableEq

/-- A question record.  Only the fields the engine reads are modelled;
a field that is absent on the JavaScript object takes the stated
default.  `type` is `none` when the object carries no `type` field. -/
structure Problem where
  id : String
  type : Option String := none
  question : String := ""
  correct : Int := 0
  answer : ℚ := 0
  tolerance : Tolerance := .unspecified
  items : List String := []
  correctOrder : List Int := []
  correctIndices : List Int := []
  stages : List Stage := []
  tags : List String := []
deriving Repr, DecidableEq

/-- `p.type || "multiple-choice"`: an absent (or empty, hence falsy)
`type` falls back to `"multiple-choice"`. -/
def problemType (p : Problem) : String :=
  match p.type with
  | none => "multiple-choice"
  | some t => if t = "" then "multiple-choice" else t

/-- Swap positions `i` and `j` of a list (identity when either index is
out of range, which `shuffleArray` never produces). -/
def swapAt (l : List α) (i j : ℕ) : List α :=
  match l.get? i, l.get? j with
  | some a, some b => (l.set i b).set j a
  | _, _ => l

/-- The Fisher-Yates loop of `shuffleArray`, counting `i` down; each
step's random index `Math.floor(Math.random() * (i + 1))` is taken from
`js` (further steps leave the list unchanged when `js` runs out, which
an actual random stream never does). -/
def shuffleAux : List α → ℕ → List ℕ → List α
  | l, 0, _ => l
  | l, _ + 1, [] => l
  | l, i + 1, j :: js => shuffleAux (swapAt l (i + 1) j) i js

/-- `shuffleArray(array)` with the random indices supplied by `js`. -/
def shuffleArray (l : List α) (js : List ℕ) : List α :=
  shuffleAux l (l.length - 1) js

/-- Append `p` to the partition for type `t`, keeping the key order of
first appearance (JavaScript object key insertion order). -/
def addToPartition (acc : List (String × List Problem)) (t : String)
    (p : Problem) : List (String × List Problem) :=
  match acc with
  | [] => [(t, [p])]
  | (t', ps) :: rest =>
    if t' = t then (t', ps ++ [p]) :: rest
    else (t', ps) :: addToPartition rest t p

/-- The `byType` map of `weightedShuffle`: partition the pool by
question type, keys in order of first appearance. -/
def partitionByType (problems : List Problem) : List (String × List Problem) :=
  problems.foldl (fun acc p => addToPartition acc (problemType p) p) []

/-- One entry of `typeQueues`. -/
structure TypeQueue where
  type : String
  items : List Problem
  weight : ℚ
deriving Repr, DecidableEq

/-- `typeWeights[type] !== undefined ? typeWeights[type] : 1`. -/
def lookupTypeWeight (tw : String → Option ℚ) (t : String) : ℚ :=
  (tw t).getD 1

/-- `problemWeights[item.id] || 1`: note `||`, so a weight of `0` is
falsy and falls back to `1`. -/
def lookupProblemWeight (pw : String → Option ℚ) (id : String) : ℚ :=
  match pw id with
  | none => 1
  | some w => if w = 0 then 1 else w

/-- The type-selection walk: traverse the queues in order, skipping
empty ones, subtracting each weight from `rand`; the first queue that
brings `rand` to `≤ 0` is selected (`none` when the walk falls
through without selecting). -/
def selectQueue (rand : ℚ) : List TypeQueue → Option ℕ
  | [] => none
  | q :: qs =>
    if q.items.isEmpty then (selectQueue rand qs).map (· + 1)
    else if rand - q.weight ≤ 0 then some 0
    else (selectQueue (rand - q.weight) qs).map (· + 1)

/-- The item-selection walk within the chosen queue: subtract weights
until the running draw reaches `≤ 0`; `none` when it falls through (the
source then keeps `pickedIndex = 0`). -/
def pickIndex : ℚ → List ℚ → Option ℕ
  | _, [] => none
  | r, w :: ws => if r - w ≤ 0 then some 0 else (pickIndex (r - w) ws).map (· + 1)

/-- The sum of weights over the non-empty queues, the loop's
`totalWeight` reduce. -/
def totalWeightOf (queues : List TypeQueue) : ℚ :=
  queues.foldl (fun sum q => sum + if q.items.isEmpty then 0 else q.weight) 0

/-- The item index picked inside the selected queue: weights looked up
per item (`problemWeights[item.id] || 1`), the draw `r` scaled by their
sum, and the walk's fall-through default `pickedIndex = 0`. -/
def pickedIndexOf (pw : String → Option ℚ) (r : ℚ) (items : List Problem) : ℕ :=
  let itemWeights := items.map fun item => lookupProblemWeight pw item.id
  (pickIndex (r * itemWeights.foldl (· + ·) 0) itemWeights).getD 0

/-- The main loop of `weightedShuffle`.  `ds k` is the `k`-th
`Math.random()` outcome of the loop (one draw per pass for the type
selection, one more when an item is selected); `fuel` bounds the number
of passes — `weightedShuffle` supplies enough fuel that it never runs
out on the draws an actual RNG produces. -/
def weightedShuffleLoop (pw : String → Option ℚ) (ds : ℕ → ℚ) :
    ℕ → ℕ → List TypeQueue → List Problem → List Problem
  | 0, _, _, acc => acc
  | fuel + 1, k, queues, acc =>
    if queues.all (fun q => q.items.isEmpty) then acc
    else if totalWeightOf queues = 0 then acc
    else
      match selectQueue (ds k * totalWeightOf queues) queues with
      | none => weightedShuffleLoop pw ds fuel (k + 1) queues acc
      | some qi =>
        match queues.get? qi with
        | none => acc
        | some q =>
          match q.items.get? (pickedIndexOf pw (ds (k + 1)) q.items) with
          | none => acc
          | some item =>
            weightedShuffleLoop pw ds fuel (k + 2)
              (queues.set qi
                { q with items := q.items.eraseIdx (pickedIndexOf pw (ds (k + 1)) q.items) })
              (acc ++ [item])

/-- `weightedShuffle(problems, typeWeights, problemWeights)`.  `js`
gives each type's Fisher-Yates choices for the initial within-type
shuffle (keyed by type name; the source draws them from the same
global RNG) and `ds` the stream of draws of the selection loop. -/
def weightedShuffle (problems : List Problem) (tw : String → Option ℚ)
    (pw : String → Option ℚ) (js : String → List ℕ) (ds : ℕ → ℚ) :
    List Problem :=
  let queues := (partitionByType problems).map fun e =>
    { type := e.1, items := shuffleArray e.2 (js e.1),
      weight := lookupTypeWeight tw e.1 : TypeQueue }
  weightedShuffleLoop pw ds problems.length 0 queues []

theorem mem_of_mem_swapAt {l : List α} {i j : ℕ} {x : α}
    (h : x ∈ swapAt l i j) : x ∈ l := by
  unfold swapAt at h
  split at h
  case _ a b ha hb =>
    rcases List.mem_or_eq_of_mem_set h with h' | rfl
    · rcases List.mem_or_eq_of_mem_set h' with h'' | rfl
      · exact h''
      · exact List.get?_mem hb
    · exact List.get?_mem ha
  case _ => exact h

theorem mem_of_mem_shuffleAux {l : List α} {i : ℕ} {js : List ℕ} {x : α}
    (h : x ∈ shuffleAux l i js) : x ∈ l := by
  induction i generalizing l js with
  | zero => simpa [shuffleAux] using h
  | succ i ih =>
    cases js with
    | nil => simpa [shuffleAux] using h
    | cons j js =>
      exact mem_of_mem_swapAt (ih (by simpa [shuffleAux] using h))

theorem mem_of_mem_shuffleArray {l : List α} {js : List ℕ} {x : α}
    (h : x ∈ shuffleArray l js) : x ∈ l :=
  mem_of_mem_shuffleAux h

theorem addToPartition_types {acc : List (String × List Problem)}
    {t : String} {p : Problem}
    (hacc : ∀ e ∈ acc, ∀ q ∈ e.2, problemType q = e.1)
    (hp : problemType p = t) :
    ∀ e ∈ addToPartition acc t p, ∀ q ∈ e.2, problemType q = e.1 := by
  induction acc with
  | nil =>
    intro e he q hq
    simp only [addToPartition, List.mem_singleton] at he
    subst he
    simp only [List.mem_singleton] at hq
    subst hq
    exact hp
  | cons hd rest ih =>
    obtain ⟨t', ps⟩ := hd
    intro e he q hq
    by_cases ht : t' = t
    · simp only [addToPartition, if_pos ht] at he
      rcases List.mem_cons.mp he with rfl | he'
      · rcases List.mem_append.mp hq with hq' | hq'
        · exact hacc (t', ps) (List.mem_cons_self _ _) q hq'
        · simp at hq'
          subst hq'
          exact hp.trans ht.symm
      · exact hacc e (List.mem_cons_of_mem _ he') q hq
    · simp only [addToPartition, if_neg ht] at he
      rcases List.mem_cons.mp he with rfl | he'
      · exact hacc _ (List.mem_cons_self _ _) q hq
      · exact ih (fun e' he' => hacc e' (List.mem_cons_of_mem _ he')) e he' q hq

theorem partitionByType_types (problems : List Problem) :
    ∀ e ∈ partitionByType problems, ∀ q ∈ e.2, problemType q = e.1 := by
  suffices h : ∀ (acc : List (String × List Problem)),
      (∀ e ∈ acc, ∀ q ∈ e.2, problemType q = e.1) →
      ∀ e ∈ problems.foldl (fun acc p => addToPartition acc (problemType p) p) acc,
        ∀ q ∈ e.2, problemType q = e.1 by
    exact h [] (by simp)
  induction problems with
  | nil => intro acc hacc; simpa using hacc
  | cons p rest ih =>
    intro acc hacc
    exact ih _ (addToPartition_types hacc rfl)

/-- A queue selected by the walk on a strictly positive draw has a
strictly positive weight (and a non-empty item list): the walk only
stops once the running draw drops to `≤ 0`, so the stopping queue's
weight absorbed a positive residue. -/
theorem selectQueue_pos_weight {rand : ℚ} {qs : List TypeQueue} {i : ℕ}
    (h0 : 0 < rand) (hsel : selectQueue rand qs = some i) :
    ∃ q, qs.get? i = some q ∧ 0 < q.weight ∧ q.items ≠ [] := by
  induction qs generalizing rand i with
  | nil => simp [selectQueue] at hsel
  | cons q qs ih =>
    unfold selectQueue at hsel
    by_cases hq : q.items.isEmpty
    · rw [if_pos hq] at hsel
      rcases Option.map_eq_some'.mp hsel with ⟨i', hi', rfl⟩
      obtain ⟨q', hget, hw, hne⟩ := ih h0 hi'
      exact ⟨q', by simpa using hget, hw, hne⟩
    · rw [if_neg hq] at hsel
      by_cases hr : rand - q.weight ≤ 0
      · rw [if_pos hr] at hsel
        obtain rfl : i = 0 := by simpa using hsel.symm
        refine ⟨q, rfl, lt_of_lt_of_le h0 (by linarith), ?_⟩
        simpa [List.isEmpty_iff] using hq
      · rw [if_neg hr] at hsel
        rcases Option.map_eq_some'.mp hsel with ⟨i', hi', rfl⟩
        obtain ⟨q', hget, hw, hne⟩ := ih (by linarith) hi'
        exact ⟨q', by simpa using hget, hw, hne⟩

theorem totalWeight_nonneg (qs : List TypeQueue)
    (hw : ∀ q ∈ qs, 0 ≤ q.weight) :
    0 ≤ totalWeightOf qs := by
  suffices h : ∀ init : ℚ, 0 ≤ init →
      0 ≤ qs.foldl (fun sum q => sum + if q.items.isEmpty then 0 else q.weight) init by
    exact h 0 le_rfl
  induction qs with
  | nil => intro init h0; simpa using h0
  | cons q qs ih =>
    intro init h0
    simp only [List.foldl_cons]
    refine ih (fun q' hq' => hw q' (List.mem_cons_of_mem _ hq')) _ ?_
    have hq := hw q (List.mem_cons_self _ _)
    split
    · simpa using h0
    · exact add_nonneg h0 hq

/-- The loop invariant for claim C1: every queue's items carry the
queue's type, and every queue's weight is its type's looked-up weight. -/
def QueuesOk (tw : String → Option ℚ) (queues : List TypeQueue) : Prop :=
  ∀ q ∈ queues, (∀ p ∈ q.items, problemType p = q.type) ∧
    q.weight = lookupTypeWeight tw q.type

theorem weightedShuffleLoop_no_zero_type {tw pw : String → Option ℚ}
    {ds : ℕ → ℚ} {T : String}
    (hT : lookupTypeWeight tw T = 0)
    (hnn : ∀ t, 0 ≤ lookupTypeWeight tw t)
    (hds : ∀ n, 0 < ds n) :
    ∀ (fuel k : ℕ) (queues : List TypeQueue) (acc : List Problem),
      QueuesOk tw queues → (∀ p ∈ acc, problemType p ≠ T) →
      ∀ p ∈ weightedShuffleLoop pw ds fuel k queues acc, problemType p ≠ T := by
  intro fuel
  induction fuel with
  | zero => intro k queues acc _ hacc; exact hacc
  | succ fuel ih =>
    intro k queues acc hq hacc
    unfold weightedShuffleLoop
    split
    · exact hacc
    · split
      · exact hacc
      · next hne htw =>
        have hw0 : 0 < totalWeightOf queues := by
          refine lt_of_le_of_ne (totalWeight_nonneg queues ?_) (Ne.symm htw)
          intro q hq'
          rw [(hq q hq').2]
          exact hnn q.type
        split
        · exact ih _ _ _ hq hacc
        · next qi hsel =>
          split
          · exact hacc
          · next q hget =>
            have hrand : 0 < ds k * totalWeightOf queues :=
              mul_pos (hds k) hw0
            obtain ⟨q', hget', hwpos, _⟩ := selectQueue_pos_weight hrand hsel
            rw [hget] at hget'
            obtain rfl : q = q' := by simpa using hget'
            split
            · exact hacc
            · next item hitem =>
              have hqmem : q ∈ queues := List.get?_mem hget
              have hitem_mem : item ∈ q.items := List.get?_mem hitem
              have htype : problemType item = q.type := (hq q hqmem).1 item hitem_mem
              have hitemT : problemType item ≠ T := by
                intro hEq
                rw [hEq] at htype
                have hzero : q.weight = 0 := by rw [(hq q hqmem).2, ← htype, hT]
                rw [hzero] at hwpos
                exact absurd hwpos (lt_irrefl 0)
              refine ih _ _ _ ?_ ?_
              · intro q' hq'
                rcases List.mem_or_eq_of_mem_set hq' with h' | rfl
                · exact hq q' h'
                · refine ⟨fun p hp => (hq q hqmem).1 p (List.mem_of_mem_eraseIdx hp),
                    (hq q hqmem).2⟩
              · intro p hp
                rcases List.mem_append.mp hp with h' | h'
                · exact hacc p h'
                · simp at h'
                  subst h'
                  exact hitemT

/-- C1 (amended): for every pool, every nonnegative per-type weight map
assigning weight `0` to a type, and every per-question weight map, the
weighted shuffle never emits a question of the zero-weight type,
provided every random draw is strictly positive.  (As stated — over
*all* outcomes of the draws — the claim fails: `Math.random()` may
return exactly `0`, and then the walk stops at the first non-empty
queue even if its weight is `0`; see the counterexample.) -/
theorem weightedShuffle_no_zero_weight_type (problems : List Problem)
    (tw pw : String → Option ℚ) (js : String → List ℕ) (ds : ℕ → ℚ)
    (T : String)
    (hT : lookupTypeWeight tw T = 0)
    (hnn : ∀ t, 0 ≤ lookupTypeWeight tw t)
    (hds : ∀ n, 0 < ds n) :
    ∀ p ∈ weightedShuffle problems tw pw js ds, problemType p ≠ T := by
  refine weightedShuffleLoop_no_zero_type hT hnn hds _ _ _ _ ?_ (by simp)
  intro q hq
  rcases List.mem_map.mp hq with ⟨e, he, rfl⟩
  exact ⟨fun p hp => partitionByType_types problems e he p (mem_of_mem_shuffleArray hp),
    rfl⟩

/-- The two-problem pool of the C1 counterexample: a zero-weight type
listed first, a weight-one type second. -/
def zProblem : Problem := { id := "z1", type := some "ztype" }

def aProblem : Problem := { id := "a1", type := some "atype" }

def cexTypeWeights : String → Option ℚ :=
  fun t => if t = "ztype" then some 0 else some 1

/-- Whatever the loop does later, items already in the accumulator stay
in the output. -/
theorem mem_acc_weightedShuffleLoop (pw : String → Option ℚ) (ds : ℕ → ℚ) :
    ∀ (fuel k : ℕ) (queues : List TypeQueue) (acc : List Problem),
      ∀ p ∈ acc, p ∈ weightedShuffleLoop pw ds fuel k queues acc := by
  intro fuel
  induction fuel with
  | zero => intro k queues acc p hp; exact hp
  | succ fuel ih =>
    intro k queues acc p hp
    unfold weightedShuffleLoop
    split
    · exact hp
    · split
      · exact hp
      · split
        · exact ih _ _ _ p hp
        · split
          · exact hp
          · split
            · exact hp
            · exact ih _ _ _ p (List.mem_append_left _ hp)

/-- C1 counterexample: with the zero-weight type's partition first in
the walk order and every `Math.random()` draw exactly `0` (a possible
outcome, since its range is `[0, 1)`), the walk subtracts the zero
weight from the zero draw and stops at `rand ≤ 0`: the zero-weight
question is emitted. -/
theorem weightedShuffle_zero_draw_cex :
    lookupTypeWeight cexTypeWeights "ztype" = 0 ∧
    problemType zProblem = "ztype" ∧
    zProblem ∈ weightedShuffle [zProblem, aProblem] cexTypeWeights
      (fun _ => none) (fun _ => []) (fun _ => 0) := by
  refine ⟨rfl, rfl, ?_⟩
  have h1 : weightedShuffle [zProblem, aProblem] cexTypeWeights
      (fun _ => none) (fun _ => []) (fun _ => 0) =
      weightedShuffleLoop (fun _ => none) (fun _ => 0) 2 0
        [{ type := "ztype", items := [zProblem], weight := 0 },
         { type := "atype", items := [aProblem], weight := 1 }] [] := rfl
  rw [h1]
  norm_num [weightedShuffleLoop, totalWeightOf, selectQueue, pickedIndexOf,
    pickIndex, lookupProblemWeight]

/-- C1 witness: a pool with a weight-zero type and one other type,
draws all `1/2`, never emits the zero-weight type. -/
theorem weightedShuffle_no_zero_weight_type_witness :
    lookupTypeWeight cexTypeWeights "ztype" = 0 ∧
    ∀ p ∈ weightedShuffle [zProblem, aProblem] cexTypeWeights
      (fun _ => none) (fun _ => []) (fun _ => 1/2), problemType p ≠ "ztype" := by
  refine ⟨rfl, ?_⟩
  refine weightedShuffle_no_zero_weight_type _ _ _ _ _ _ rfl ?_ ?_
  · intro t
    unfold lookupTypeWeight cexTypeWeights
    split <;> norm_num
  · intro n
    norm_num

/-- A per-problem tracking entry `{seen, correct, lastSeen}`.
`lastSeen` is the parsed epoch value (milliseconds) of the stored
timestamp; `none` models `null`/`undefined` (the source's falsiness
test on the stored ISO string). -/
structure TrackingEntry where
  seen : ℕ
  correct : ℕ
  lastSeen : Option ℝ

/-- `computeProficiency(trackingEntry, now)`, with times as epoch
milliseconds.  Note that the source clamps neither `daysSince` nor the
result. -/
noncomputable def computeProficiency (trackingEntry : Option TrackingEntry)
    (now : ℝ) : ℝ :=
  match trackingEntry with
  | none => 0.5
  | some t =>
    if t.seen = 0 then 0.5
    else
      match t.lastSeen with
      | none => 0.5
      | some ls =>
        let accuracy : ℝ := (t.correct : ℝ) / (t.seen : ℝ)
        let daysSince : ℝ := (now - ls) / 86400000
        let confidence : ℝ := Real.exp (-(1/10) * daysSince)
        accuracy * confidence + 0.5 * (1 - confidence)

/-- `computeSRWeights(problems, problemTracking, now)`: the returned
per-id dictionary, as an association list in problem order (the
source's object would collapse duplicate ids; the claims use distinct
ids). -/
noncomputable def computeSRWeights (problems : List Problem)
    (problemTracking : String → Option TrackingEntry) (now : ℝ) :
    List (String × ℝ) :=
  problems.map fun problem =>
    (problem.id,
      match problemTracking problem.id with
      | none => 1.5
      | some entry => 2 - computeProficiency (some entry) now)

/-- A tracking entry whose `lastSeen` lies ten days in the future of
the reference time `0`: seen once, answered correctly. -/
def futureEntry : TrackingEntry :=
  { seen := 1, correct := 1, lastSeen := some 864000000 }

theorem computeProficiency_futureEntry_eq :
    computeProficiency (some futureEntry) 0 = Real.exp 1 / 2 + 1 / 2 := by
  show (futureEntry.correct : ℝ) / (futureEntry.seen : ℝ) *
      Real.exp (-(1/10) * ((0 - 864000000) / 86400000)) +
      0.5 * (1 - Real.exp (-(1/10) * ((0 - 864000000) / 86400000))) =
      Real.exp 1 / 2 + 1 / 2
  have harg : (-(1/10 : ℝ)) * ((0 - 864000000) / 86400000) = 1 := by norm_num
  rw [harg]
  show ((1 : ℕ) : ℝ) / ((1 : ℕ) : ℝ) * Real.exp 1 + 0.5 * (1 - Real.exp 1) = _
  push_cast
  ring

theorem one_lt_computeProficiency_futureEntry :
    1 < computeProficiency (some futureEntry) 0 := by
  rw [computeProficiency_futureEntry_eq]
  have h := Real.add_one_le_exp (1 : ℝ)
  linarith

/-- C2: at a `lastSeen` ten days in the future of `now` the source
returns `e/2 + 1/2 ≈ 1.86`, outside `[0, 1]`: neither
`daysSinceLastSeen` nor the result is clamped, contradicting the
claimed clamping (and the function's own "(0–1)" doc comment). -/
theorem computeProficiency_future_unclamped :
    computeProficiency (some futureEntry) 0 = Real.exp 1 / 2 + 1 / 2 ∧
    1 < computeProficiency (some futureEntry) 0 :=
  ⟨computeProficiency_futureEntry_eq, one_lt_computeProficiency_futureEntry⟩

/-- The problem carrying the C6 counterexample's tracking entry. -/
def trackedProblem : Problem := { id := "p1" }

/-- C6: with the same future-`lastSeen` entry, `computeSRWeights`
returns the weight `2 − proficiency = 3/2 − e/2 ≈ 0.64 < 1` for a
tracked problem: the weight is `2 − proficiency` with no clamp to
`[1, 2]`, contradicting the claimed clamp (and the function's own
"range 1.0–2.0, weight ≥ 1.0" doc comment). -/
theorem computeSRWeights_future_unclamped :
    computeSRWeights [trackedProblem] (fun _ => some futureEntry) 0 =
      [("p1", 2 - computeProficiency (some futureEntry) 0)] ∧
    2 - computeProficiency (some futureEntry) 0 < 1 := by
  refine ⟨rfl, ?_⟩
  have h := one_lt_computeProficiency_futureEntry
  linarith

/-- JavaScript `Math.round` on the arguments the stats code produces:
round half away from zero upwards, i.e. `⌊x + 1/2⌋`. -/
def jsRound (x : ℚ) : ℤ := ⌊x + 1/2⌋

/-- A `{correct, total}` cell of an imported breakdown object. -/
structure BreakdownCell where
  correct : ℚ
  total : ℚ
deriving Repr, DecidableEq

/-- A breakdown cell with its recomputed percentage. -/
structure BreakdownFull where
  correct : ℚ
  total : ℚ
  percentage : ℤ
deriving Repr, DecidableEq

/-- The `score` object of an exported session summary.  `skipped` and
`timedOut` may be absent in older summaries (read as `|| 0`). -/
structure SummaryScore where
  correct : ℚ
  total : ℚ
  percentage : ℚ
  skipped : Option ℚ := none
  timedOut : Option ℚ := none
deriving Repr, DecidableEq

/-- One entry of a summary's `results` list (the fields the stats
engine reads). -/
structure SummaryResult where
  id : String
  question : Option String := none
  correct : Bool
  skipped : Bool := false
  timedOut : Bool := false
deriving Repr, DecidableEq

/-- The summary's `context` blob fields the stats engine reads;
`none` models an absent (or falsy) title. -/
structure SessionContext where
  unitTitle : Option String := none
  chapterTitle : Option String := none
deriving Repr, DecidableEq

/-- An exported session summary, as consumed by the aggregate stats
engine.  The `timestamp` is modelled by its parsed epoch value, which
both the deduplication key and the trend sort reduce to; `none` fields
model absent properties of older summaries. -/
structure SessionSummary where
  timestamp : Int
  score : SummaryScore
  results : Option (List SummaryResult) := none
  breakdownByType : Option (List (String × BreakdownCell)) := none
  breakdownByTag : Option (List (String × BreakdownCell)) := none
  context : Option SessionContext := none
deriving Repr, DecidableEq

/-- The `seen`-set filter of `deduplicateSessions`, with the set of
already-seen timestamps accumulated in `seen`. -/
def dedupAux (seen : List Int) : List SessionSummary → List SessionSummary
  | [] => []
  | s :: rest =>
    if s.timestamp ∈ seen then dedupAux seen rest
    else s :: dedupAux (s.timestamp :: seen) rest

/-- `deduplicateSessions(sessions)`. -/
def deduplicateSessions (sessions : List SessionSummary) : List SessionSummary :=
  dedupAux [] sessions

/-- The spec's description of deduplication: keep the first occurrence
per distinct timestamp key and drop all later sessions with the same
timestamp. -/
def firstPerTimestamp : List SessionSummary → List SessionSummary
  | [] => []
  | s :: rest =>
    s :: firstPerTimestamp (rest.filter fun t => t.timestamp ≠ s.timestamp)
termination_by l => l.length
decreasing_by
  simp only [List.length_cons]
  exact Nat.lt_succ_of_le (List.length_filter_le _ _)

/-- Add `(c, t)` into the cell for `key`, creating it at the end on
first sight (JavaScript object key insertion order). -/
def bumpCell (m : List (String × BreakdownCell)) (key : String) (c t : ℚ) :
    List (String × BreakdownCell) :=
  match m with
  | [] => [(key, ⟨c, t⟩)]
  | (k, e) :: rest =>
    if k = key then (k, ⟨e.correct + c, e.total + t⟩) :: rest
    else (k, e) :: bumpCell rest key c t

/-- A `problemStats` record. -/
structure ProblemStat where
  id : String
  question : String
  wrongCount : ℕ
  seenCount : ℕ
deriving Repr, DecidableEq

/-- Track one non-skipped, non-timed-out result in `problemStats`. -/
def bumpProblemStat (m : List (String × ProblemStat)) (r : SummaryResult) :
    List (String × ProblemStat) :=
  match m with
  | [] =>
    [(r.id, { id := r.id, question := r.question.getD "",
              wrongCount := if r.correct then 0 else 1, seenCount := 1 })]
  | (k, e) :: rest =>
    if k = r.id then
      (k, { e with seenCount := e.seenCount + 1,
                   wrongCount := if r.correct then e.wrongCount else e.wrongCount + 1 })
        :: rest
    else (k, e) :: bumpProblemStat rest r

/-- The running accumulators of `computeAggregateStats`' session loop. -/
structure AggAcc where
  totalAnswered : ℚ := 0
  totalCorrect : ℚ := 0
  totalSkipped : ℚ := 0
  totalTimedOut : ℚ := 0
  byType : List (String × BreakdownCell) := []
  byTag : List (String × BreakdownCell) := []
  byUnit : List (String × BreakdownCell) := []
  byChapter : List (String × BreakdownCell) := []
  problemStats : List (String × ProblemStat) := []

/-- One pass of the session loop of `computeAggregateStats`. -/
def accSession (acc : AggAcc) (s : SessionSummary) : AggAcc :=
  let acc := { acc with
    totalAnswered := acc.totalAnswered + s.score.total,
    totalCorrect := acc.totalCorrect + s.score.correct,
    totalSkipped := acc.totalSkipped + (s.score.skipped.getD 0),
    totalTimedOut := acc.totalTimedOut + (s.score.timedOut.getD 0) }
  let acc := match s.breakdownByType with
    | none => acc
    | some m => { acc with
        byType := m.foldl (fun bt e => bumpCell bt e.1 e.2.correct e.2.total) acc.byType }
  let acc := match s.breakdownByTag with
    | none => acc
    | some m => { acc with
        byTag := m.foldl (fun bt e => bumpCell bt e.1 e.2.correct e.2.total) acc.byTag }
  let acc := match s.context with
    | none => acc
    | some ctx =>
      let acc := match ctx.unitTitle with
        | none => acc
        | some u => { acc with
            byUnit := bumpCell acc.byUnit u s.score.correct s.score.total }
      match ctx.chapterTitle with
      | none => acc
      | some c => { acc with
          byChapter := bumpCell acc.byChapter c s.score.correct s.score.total }
  match s.results with
  | none => acc
  | some rs => { acc with
      problemStats := rs.foldl
        (fun m r => if r.skipped || r.timedOut then m else bumpProblemStat m r)
        acc.problemStats }

/-- `addPercentages`: recompute each cell's percentage after summation. -/
def addPercentages (m : List (String × BreakdownCell)) :
    List (String × BreakdownFull) :=
  m.map fun e =>
    (e.1, { correct := e.2.correct, total := e.2.total,
            percentage :=
              if (0 : ℚ) < e.2.total then jsRound (e.2.correct / e.2.total * 100)
              else 0 })

/-- One point of the chronological trend series. -/
structure TrendPoint where
  timestamp : Int
  percentage : ℚ
  correct : ℚ
  total : ℚ
deriving Repr, DecidableEq

/-- One ranked entry of `mostMissed`. -/
structure MissedEntry where
  id : String
  question : String
  wrongCount : ℕ
  seenCount : ℕ
  percentage : ℤ
deriving Repr, DecidableEq

/-- The result record of `computeAggregateStats`. -/
structure AggregateStats where
  sessionCount : ℕ
  totalAnswered : ℚ
  totalCorrect : ℚ
  overallPercentage : ℤ
  totalSkipped : ℚ
  totalTimedOut : ℚ
  byType : List (String × BreakdownFull)
  byTag : List (String × BreakdownFull)
  byUnit : List (String × BreakdownFull)
  byChapter : List (String × BreakdownFull)
  trend : List TrendPoint
  mostMissed : List MissedEntry
deriving Repr, DecidableEq

/-- `computeAggregateStats(sessions)`. -/
def computeAggregateStats (sessions : List SessionSummary) : AggregateStats :=
  let acc := sessions.foldl accSession {}
  let trend := (sessions.map fun s =>
      { timestamp := s.timestamp, percentage := s.score.percentage,
        correct := s.score.correct, total := s.score.total : TrendPoint }).mergeSort
    (fun a b => decide (a.timestamp ≤ b.timestamp))
  let mostMissed := (((acc.problemStats.map Prod.snd).filter
      fun p => 0 < p.wrongCount).mergeSort
        (fun a b => decide (b.wrongCount ≤ a.wrongCount))).take 10
  { sessionCount := sessions.length,
    totalAnswered := acc.totalAnswered,
    totalCorrect := acc.totalCorrect,
    overallPercentage :=
      if 0 < acc.totalAnswered then jsRound (acc.totalCorrect / acc.totalAnswered * 100)
      else 0,
    totalSkipped := acc.totalSkipped,
    totalTimedOut := acc.totalTimedOut,
    byType := addPercentages acc.byType,
    byTag := addPercentages acc.byTag,
    byUnit := addPercentages acc.byUnit,
    byChapter := addPercentages acc.byChapter,
    trend := trend,
    mostMissed := mostMissed.map fun p =>
      { id := p.id, question := p.question, wrongCount := p.wrongCount,
        seenCount := p.seenCount,
        percentage :=
          if 0 < p.seenCount then jsRound ((p.wrongCount : ℚ) / p.seenCount * 100)
          else 0 } }

theorem dedupAux_eq_firstPerTimestamp (l : List SessionSummary) :
    ∀ seen, dedupAux seen l = firstPerTimestamp (l.filter fun s => s.timestamp ∉ seen) := by
  induction l with
  | nil => intro seen; simp [dedupAux, firstPerTimestamp]
  | cons s rest ih =>
    intro seen
    by_cases hs : s.timestamp ∈ seen
    · rw [show dedupAux seen (s :: rest) = dedupAux seen rest from by
        simp [dedupAux, hs]]
      rw [ih seen]
      congr 1
      simp [List.filter_cons, hs]
    · rw [show dedupAux seen (s :: rest) = s :: dedupAux (s.timestamp :: seen) rest from by
        simp [dedupAux, hs]]
      rw [ih (s.timestamp :: seen)]
      rw [show (s :: rest).filter (fun t => t.timestamp ∉ seen) =
          s :: rest.filter (fun t => t.timestamp ∉ seen) from by
        simp [List.filter_cons, hs]]
      rw [firstPerTimestamp]
      congr 1
      rw [List.filter_filter]
      refine congrArg firstPerTimestamp (List.filter_congr ?_)
      intro t _
      by_cases h1 : t.timestamp = s.timestamp <;> by_cases h2 : t.timestamp ∈ seen <;>
        simp [h1, h2]

/-- C7: `deduplicateSessions` keeps exactly the first occurrence per
distinct timestamp and drops every later session with the same
timestamp; consequently aggregating a deduplicated doubled summary
equals aggregating the single summary. -/
theorem deduplicateSessions_spec :
    (∀ sessions : List SessionSummary,
      deduplicateSessions sessions = firstPerTimestamp sessions) ∧
    (∀ s : SessionSummary,
      computeAggregateStats (deduplicateSessions [s, s]) =
        computeAggregateStats [s]) := by
  have hd : ∀ sessions : List SessionSummary,
      deduplicateSessions sessions = firstPerTimestamp sessions := by
    intro sessions
    rw [deduplicateSessions, dedupAux_eq_firstPerTimestamp]
    congr 1
    simp
  refine ⟨hd, fun s => ?_⟩
  have h2 : deduplicateSessions [s, s] = [s] := by
    rw [hd]
    rw [firstPerTimestamp]
    simp [firstPerTimestamp]
  rw [h2]

/-- The state machine's states. -/
inductive QState where
  | idle
  | practicing
  | answered
  | complete
deriving Repr, DecidableEq

/-- The format-specific payload of an answer record (the source stores
these as ad-hoc object fields). -/
inductive AnswerPayload where
  | choice (selected : Int)
  | multi (selected : List Int) (correctIndices : List Int)
  | numeric (userValue : Option ℚ) (correctValue : ℚ)
  | ordering (userOrder : List ℕ)
  | twoStage (stageAnswers : List (Int × Bool))
  | bypass
deriving Repr, DecidableEq

/-- One answer record of the session's answer log. -/
structure Answer where
  problemId : String
  correct : Bool
  skipped : Bool := false
  timedOut : Bool := false
  payload : AnswerPayload := .bypass
deriving Repr, DecidableEq

/-- An emitted event.  Only the payload fields the claims mention are
modelled; the source events additionally carry display data
(explanations, references, option texts, the summary) that no claim
depends on. -/
inductive Event where
  | stateChange (fromState toState : QState)
  | questionShow (index total : ℕ)
  | optionSelected (index : Int) (correct : Bool)
  | twoStageAdvance (stageIndex : ℕ) (correct : Bool)
  | multiSelectToggle (index : Int) (selected : Bool)
  | multiSelectResult (correct : Bool)
  | numericResult (correct : Bool)
  | orderingUpdate (order : List ℕ)
  | orderingResult (correct : Bool)
  | skip (index : ℕ)
  | timeout (index : ℕ)
  | complete (correct total : ℕ)
deriving Repr, DecidableEq

/-- The default per-type weights (`DEFAULT_TYPE_WEIGHTS`). -/
def DEFAULT_TYPE_WEIGHTS : String → Option ℚ := fun t =>
  if t = "multiple-choice" then some 1
  else if t = "numeric-input" then some (3/2)
  else if t = "ordering" then some 2
  else if t = "multi-select" then some (3/2)
  else if t = "two-stage" then some 2
  else none

/-- The mutable state of one `OpenQuizzer` instance.  The listener
registry is external (events are returned as lists); the `context`
blob and the stored `problemTracking` are not modelled — the latter
only feeds `computeSRWeights`, whose output enters the operations as
an explicit weight oracle. -/
structure Engine where
  state : QState := .idle
  typeWeights : String → Option ℚ
  problems : List Problem := []
  allProblems : List Problem := []
  maxProblems : ℕ := 0
  currentIndex : ℕ := 0
  answers : List Answer := []
  answered : Bool := false
  multiSelectSelected : List Int := []
  orderingOrder : List ℕ := []
  twoStageIndex : ℕ := 0
  twoStageAnswers : List (Int × Bool) := []

/-- `new OpenQuizzer({typeWeights})`: caller weights merged over the
defaults. -/
def mkEngine (tw : String → Option ℚ) : Engine :=
  { typeWeights := fun t =>
      match tw t with
      | some w => some w
      | none => DEFAULT_TYPE_WEIGHTS t }

/-- `#setState`: a state-change event is emitted only when the state
actually changes. -/
def setState (s : Engine) (t : QState) : Engine × List Event :=
  if s.state = t then (s, [])
  else ({ s with state := t }, [Event.stateChange s.state t])

/-- `#resetQuestionState`. -/
def resetQuestionState (s : Engine) : Engine :=
  { s with answered := false, multiSelectSelected := [], orderingOrder := [],
           twoStageIndex := 0, twoStageAnswers := [] }

/-- The `score` getter's `{correct, total}` part (the percentage and
the skipped/timed-out counts are recomputed the same way where
needed). -/
def scoreCorrect (s : Engine) : ℕ :=
  ((s.answers.filter fun a => !a.skipped && !a.timedOut).filter (·.correct)).length

def scoreTotal (s : Engine) : ℕ :=
  (s.answers.filter fun a => !a.skipped && !a.timedOut).length

/-- `#applyMaxProblems` (`0` means unlimited). -/
def applyMaxProblems (problems : List Problem) (maxProblems : ℕ) : List Problem :=
  if 0 < maxProblems ∧ maxProblems < problems.length then problems.take maxProblems
  else problems

/-- `#emitCurrentQuestion`; `js` supplies the Fisher-Yates choices for
the display shuffle of an ordering question's items.  An out-of-range
`currentIndex` (a `TypeError` in the source) emits nothing; the
per-question state is still reset, as in the source, where the reset
precedes the problem read. -/
def emitCurrentQuestion (s : Engine) (js : List ℕ) : Engine × List Event :=
  let s := resetQuestionState s
  match s.problems[s.currentIndex]? with
  | none => (s, [])
  | some p =>
    if problemType p = "ordering" then
      let shuffled := shuffleArray (List.range p.items.length) js
      ({ s with orderingOrder := shuffled },
        [Event.questionShow s.currentIndex s.problems.length])
    else (s, [Event.questionShow s.currentIndex s.problems.length])

/-- `#complete`: the source computes the final score and the session
summary, transitions, and emits the `complete` event carrying them. -/
def completeOp (s : Engine) : Engine × List Event :=
  let c := scoreCorrect s
  let t := scoreTotal s
  let r := setState s .complete
  (r.1, r.2 ++ [Event.complete c t])

/-- `start()`. -/
def start (s : Engine) (js : List ℕ) : Engine × List Event :=
  if s.problems.isEmpty then (s, [])
  else
    let s := { s with currentIndex := 0, answers := [] }
    let r := setState s .practicing
    let r2 := emitCurrentQuestion r.1 js
    (r2.1, r.2 ++ r2.2)

/-- `next()`. -/
def next (s : Engine) (js : List ℕ) : Engine × List Event :=
  if s.state ≠ .answered then (s, [])
  else if s.currentIndex < s.problems.length - 1 then
    let s := { s with currentIndex := s.currentIndex + 1 }
    let r := setState s .practicing
    let r2 := emitCurrentQuestion r.1 js
    (r2.1, r.2 ++ r2.2)
  else completeOp s

/-- `retry()`.  The source recomputes per-problem weights from the
stored tracking data at the current wall-clock time
(`computeSRWeights`); they enter here as the oracle `pw`.  `jsT` and
`ds` are the shuffle's random outcomes, `js` the display shuffle's. -/
def retry (s : Engine) (pw : String → Option ℚ) (jsT : String → List ℕ)
    (ds : ℕ → ℚ) (js : List ℕ) : Engine × List Event :=
  let s := { s with
    problems := applyMaxProblems
      (weightedShuffle s.allProblems s.typeWeights pw jsT ds) s.maxProblems,
    currentIndex := 0, answers := [] }
  let s := resetQuestionState s
  let r := setState s .practicing
  let r2 := emitCurrentQuestion r.1 js
  (r2.1, r.2 ++ r2.2)

/-- `reset()`. -/
def reset (s : Engine) : Engine × List Event :=
  let s := { s with problems := [], allProblems := [], maxProblems := 0,
                    currentIndex := 0, answers := [] }
  let s := resetQuestionState s
  setState s .idle

/-- `loadProblems(problems, maxProblems, context, problemTracking)`.
The spaced-repetition weights the source derives from `problemTracking`
and the wall clock enter as the oracle `pw`; the `context` blob is not
modelled. -/
def loadProblems (s : Engine) (problems : List Problem) (maxProblems : ℕ)
    (pw : String → Option ℚ) (jsT : String → List ℕ) (ds : ℕ → ℚ) :
    Engine × List Event :=
  let s := { s with
    allProblems := problems, maxProblems := maxProblems,
    problems := applyMaxProblems
      (weightedShuffle problems s.typeWeights pw jsT ds) maxProblems,
    currentIndex := 0, answers := [] }
  let s := resetQuestionState s
  setState s .idle

/-- `#handleMultipleChoiceSelect(index)`. -/
def handleMultipleChoiceSelect (s : Engine) (p : Problem) (index : Int) :
    Engine × List Event :=
  if s.answered then (s, [])
  else
    let isCorrect : Bool := index == p.correct
    let s := { s with
      answered := true,
      answers := s.answers ++
        [{ problemId := p.id, correct := isCorrect, payload := .choice index }] }
    let r := setState s .answered
    (r.1, r.2 ++ [Event.optionSelected index isCorrect])

/-- `#handleTwoStageSelect(index)` (no `#answered` guard in the
source).  A missing stage record (a `TypeError` in the source) is a
no-op. -/
def handleTwoStageSelect (s : Engine) (p : Problem) (index : Int) :
    Engine × List Event :=
  match p.stages[s.twoStageIndex]? with
  | none => (s, [])
  | some stage =>
    let isCorrect : Bool := index == stage.correct
    let s := { s with twoStageAnswers := s.twoStageAnswers ++ [(index, isCorrect)] }
    if s.twoStageIndex < p.stages.length - 1 then
      ({ s with twoStageIndex := s.twoStageIndex + 1 },
        [Event.twoStageAdvance s.twoStageIndex isCorrect])
    else
      let allCorrect : Bool := s.twoStageAnswers.all fun a => a.2
      let s := { s with
        answered := true,
        answers := s.answers ++
          [{ problemId := p.id, correct := allCorrect,
             payload := .twoStage s.twoStageAnswers }] }
      let r := setState s .answered
      (r.1, r.2 ++ [Event.optionSelected index isCorrect])

/-- `selectOption(index)`. -/
def selectOption (s : Engine) (index : Int) : Engine × List Event :=
  if s.state ≠ .practicing then (s, [])
  else
    match s.problems[s.currentIndex]? with
    | none => (s, [])
    | some p =>
      if problemType p = "two-stage" then handleTwoStageSelect s p index
      else handleMultipleChoiceSelect s p index

/-- `toggleMultiSelect(index)`: the selected set as an insertion-order
list without duplicates. -/
def toggleMultiSelect (s : Engine) (index : Int) : Engine × List Event :=
  if s.state ≠ .practicing then (s, [])
  else if s.answered then (s, [])
  else
    let sel :=
      if index ∈ s.multiSelectSelected then s.multiSelectSelected.erase index
      else s.multiSelectSelected ++ [index]
    ({ s with multiSelectSelected := sel },
      [Event.multiSelectToggle index (decide (index ∈ sel))])

/-- The sort applied to index lists before comparison.  The source uses
JavaScript's default (string-comparing) `sort()`; sorting both sides by
any one total order yields the same equality test, so the numeric order
is used (the stored order inside the answer payload can differ from the
source when indices have differing digit counts, which no claim
observes). -/
def sortIndices (l : List Int) : List Int :=
  l.mergeSort fun a b => decide (a ≤ b)

/-- `submitMultiSelect()`. -/
def submitMultiSelect (s : Engine) : Engine × List Event :=
  if s.state ≠ .practicing then (s, [])
  else if s.answered then (s, [])
  else
    let s := { s with answered := true }
    match s.problems[s.currentIndex]? with
    | none => (s, [])
    | some p =>
      let selected := sortIndices s.multiSelectSelected
      let correctIdx := sortIndices p.correctIndices
      let isCorrect : Bool := selected == correctIdx
      let s := { s with answers := s.answers ++
        [{ problemId := p.id, correct := isCorrect,
           payload := .multi selected correctIdx }] }
      let r := setState s .answered
      (r.1, r.2 ++ [Event.multiSelectResult isCorrect])

/-- `submitNumeric(rawString)` after parsing: `userValue` is the result
of `parseNumericInput` (`none` for `NaN`).  The source's guard against
empty/whitespace input precedes parsing and is not modelled. -/
def submitNumeric (s : Engine) (userValue : Option ℚ) : Engine × List Event :=
  if s.state ≠ .practicing then (s, [])
  else if s.answered then (s, [])
  else
    let s := { s with answered := true }
    match s.problems[s.currentIndex]? with
    | none => (s, [])
    | some p =>
      let isCorrect := checkNumericAnswer userValue p.answer p.tolerance
      let s := { s with answers := s.answers ++
        [{ problemId := p.id, correct := isCorrect,
           payload := .numeric userValue p.answer }] }
      let r := setState s .answered
      (r.1, r.2 ++ [Event.numericResult isCorrect])

/-- `moveOrderingItem(fromIndex, toIndex)` with its range guard. -/
def moveOrderingItem (s : Engine) (fromIndex toIndex : Int) :
    Engine × List Event :=
  if s.state ≠ .practicing then (s, [])
  else if s.answered then (s, [])
  else if fromIndex < 0 ∨ (s.orderingOrder.length : Int) ≤ fromIndex ∨
      toIndex < 0 ∨ (s.orderingOrder.length : Int) ≤ toIndex then (s, [])
  else
    match s.orderingOrder[fromIndex.toNat]? with
    | none => (s, [])
    | some item =>
      let ord := (s.orderingOrder.eraseIdx fromIndex.toNat).insertIdx toIndex.toNat item
      ({ s with orderingOrder := ord }, [Event.orderingUpdate ord])

/-- `#gradeOrdering()`: position-by-position comparison of the user's
permutation against `correctOrder` (an out-of-range position compares
`undefined`, i.e. `none`, hence false). -/
def gradeOrdering (s : Engine) : Engine × List Event :=
  let s := { s with answered := true }
  match s.problems[s.currentIndex]? with
  | none => (s, [])
  | some p =>
    let isCorrect : Bool := s.orderingOrder.enum.all fun x =>
      p.correctOrder[x.1]? == some (x.2 : Int)
    let s := { s with answers := s.answers ++
      [{ problemId := p.id, correct := isCorrect,
         payload := .ordering s.orderingOrder }] }
    let r := setState s .answered
    (r.1, r.2 ++ [Event.orderingResult isCorrect])

/-- `submitOrdering()`. -/
def submitOrdering (s : Engine) : Engine × List Event :=
  if s.state ≠ .practicing then (s, [])
  else if s.answered then (s, [])
  else gradeOrdering s

/-- `skip()` (no `#answered` guard in the source). -/
def skip (s : Engine) (js : List ℕ) : Engine × List Event :=
  if s.state ≠ .practicing then (s, [])
  else
    match s.problems[s.currentIndex]? with
    | none => (s, [])
    | some p =>
      let s := { s with answers := s.answers ++
        [{ problemId := p.id, correct := false, skipped := true }] }
      let evs := [Event.skip s.currentIndex]
      if s.currentIndex < s.problems.length - 1 then
        let s := { s with currentIndex := s.currentIndex + 1 }
        let r2 := emitCurrentQuestion s js
        (r2.1, evs ++ r2.2)
      else
        let r2 := completeOp s
        (r2.1, evs ++ r2.2)

/-- `timeout()` (externally driven; no `#answered` guard). -/
def timeoutOp (s : Engine) (js : List ℕ) : Engine × List Event :=
  if s.state ≠ .practicing then (s, [])
  else
    match s.problems[s.currentIndex]? with
    | none => (s, [])
    | some p =>
      let s := { s with answers := s.answers ++
        [{ problemId := p.id, correct := false, timedOut := true }] }
      let evs := [Event.timeout s.currentIndex]
      if s.currentIndex < s.problems.length - 1 then
        let s := { s with currentIndex := s.currentIndex + 1 }
        let r2 := emitCurrentQuestion s js
        (r2.1, evs ++ r2.2)
      else
        let r2 := completeOp s
        (r2.1, evs ++ r2.2)

/-- A session snapshot (`getSnapshot()`); deep copies are identities in
a pure model, and the `context` blob is not modelled. -/
structure Snapshot where
  problems : List Problem
  allProblems : List Problem
  answers : List Answer
  maxProblems : ℕ

/-- `getSnapshot()`. -/
def getSnapshot (s : Engine) : Snapshot :=
  { problems := s.problems, allProblems := s.allProblems,
    answers := s.answers, maxProblems := s.maxProblems }

/-- `restoreSession(snapshot)`. -/
def restoreSession (s : Engine) (snap : Snapshot) : Engine × List Event :=
  let s := { s with problems := snap.problems, allProblems := snap.allProblems,
                    answers := snap.answers, maxProblems := snap.maxProblems,
                    currentIndex := snap.answers.length }
  let s := resetQuestionState s
  setState s .idle

/-- `resume()`. -/
def resume (s : Engine) (js : List ℕ) : Engine × List Event :=
  if s.state ≠ .idle then (s, [])
  else if s.problems.isEmpty then (s, [])
  else if s.problems.length ≤ s.currentIndex then
    let r := setState s .practicing
    let r2 := completeOp r.1
    (r2.1, r.2 ++ r2.2)
  else
    let r := setState s .practicing
    let r2 := emitCurrentQuestion r.1 js
    (r2.1, r.2 ++ r2.2)

/-- C5: every answer-submission operation is a no-op (state, answer log
and events unchanged) outside `practicing`; the operations with an
idempotence guard are also no-ops on an already-answered question; and
advance-to-next is a no-op outside `answered`. -/
theorem submission_noop_outside_practicing (s : Engine)
    (index fromIndex toIndex : Int) (userValue : Option ℚ) (js : List ℕ) :
    (s.state ≠ .practicing →
      selectOption s index = (s, []) ∧
      toggleMultiSelect s index = (s, []) ∧
      submitMultiSelect s = (s, []) ∧
      submitNumeric s userValue = (s, []) ∧
      moveOrderingItem s fromIndex toIndex = (s, []) ∧
      submitOrdering s = (s, []) ∧
      skip s js = (s, []) ∧
      timeoutOp s js = (s, [])) ∧
    (s.state = .practicing → s.answered = true →
      toggleMultiSelect s index = (s, []) ∧
      submitMultiSelect s = (s, []) ∧
      submitNumeric s userValue = (s, []) ∧
      submitOrdering s = (s, [])) ∧
    (s.state ≠ .answered → next s js = (s, [])) := by
  refine ⟨fun h => ?_, fun h ha => ?_, fun h => ?_⟩
  · exact ⟨by simp [selectOption, h], by simp [toggleMultiSelect, h],
      by simp [submitMultiSelect, h], by simp [submitNumeric, h],
      by simp [moveOrderingItem, h], by simp [submitOrdering, h],
      by simp [skip, h], by simp [timeoutOp, h]⟩
  · exact ⟨by simp [toggleMultiSelect, h, ha],
      by simp [submitMultiSelect, h, ha],
      by simp [submitNumeric, h, ha],
      by simp [submitOrdering, h, ha]⟩
  · simp [next, h]

/-- An engine that has loaded nothing: freshly constructed, `idle`. -/
def idleEngine : Engine := mkEngine fun _ => none

/-- C5 witness: on the fresh idle engine every submission operation and
`next` return the state unchanged with no events. -/
theorem submission_noop_witness :
    idleEngine.state ≠ QState.practicing ∧
    selectOption idleEngine 0 = (idleEngine, []) ∧
    skip idleEngine [] = (idleEngine, []) ∧
    submitNumeric idleEngine none = (idleEngine, []) ∧
    idleEngine.state ≠ QState.answered ∧
    next idleEngine [] = (idleEngine, []) := by
  have hst : idleEngine.state ≠ QState.practicing := by decide
  have han : idleEngine.state ≠ QState.answered := by decide
  have h := submission_noop_outside_practicing idleEngine 0 0 0 none []
  exact ⟨hst, (h.1 hst).1, (h.1 hst).2.2.2.2.2.2.1, (h.1 hst).2.2.2.1,
    han, h.2.2 han⟩

/-- C4: on a two-stage question in `practicing`, answering a non-final
stage keeps the state `practicing`, appends no answer record, and emits
exactly a stage-advance event; only the final stage's answer appends
the answer record and transitions to `answered`, and the recorded
correctness is the conjunction of all stages' correctness. -/
theorem twoStage_select_behavior (s : Engine) (p : Problem) (stage : Stage)
    (index : Int)
    (hst : s.state = .practicing)
    (hp : s.problems[s.currentIndex]? = some p)
    (hty : problemType p = "two-stage")
    (hstage : p.stages[s.twoStageIndex]? = some stage) :
    (s.twoStageIndex < p.stages.length - 1 →
      (selectOption s index).1.state = .practicing ∧
      (selectOption s index).1.answers = s.answers ∧
      (selectOption s index).2 =
        [Event.twoStageAdvance s.twoStageIndex (index == stage.correct)]) ∧
    (s.twoStageIndex = p.stages.length - 1 →
      (selectOption s index).1.state = .answered ∧
      (selectOption s index).1.answers = s.answers ++
        [{ problemId := p.id,
           correct := (s.twoStageAnswers ++ [(index, index == stage.correct)]).all
             fun a => a.2,
           payload := .twoStage
             (s.twoStageAnswers ++ [(index, index == stage.correct)]) }] ∧
      (selectOption s index).2 =
        [Event.stateChange .practicing .answered,
         Event.optionSelected index (index == stage.correct)] ∧
      (((s.twoStageAnswers ++ [(index, index == stage.correct)]).all
          fun a => a.2) = true ↔
        (∀ a ∈ s.twoStageAnswers, a.2 = true) ∧ index = stage.correct)) := by
  have hsel : selectOption s index = handleTwoStageSelect s p index := by
    simp [selectOption, hst, hp, hty]
  constructor
  · intro hlt
    rw [hsel]
    simp only [handleTwoStageSelect, hstage, if_pos hlt]
    exact ⟨hst, by trivial, by trivial⟩
  · intro heq
    have hnlt : ¬ s.twoStageIndex < p.stages.length - 1 := by
      rw [heq]; exact lt_irrefl _
    rw [hsel]
    simp only [handleTwoStageSelect, hstage, if_neg hnlt, setState]
    rw [if_neg (by rw [hst]; decide)]
    rw [hst]
    refine ⟨rfl, rfl, rfl, ?_⟩
    simp [List.all_append, List.all_eq_true]

/-- The two-stage question of the C4 witness: two stages, first correct
index `0`, second correct index `1`. -/
def twoStageProblem : Problem :=
  { id := "ts1", type := some "two-stage",
    stages := [{ question := "s1", options := ["a", "b"], correct := 0 },
               { question := "s2", options := ["c", "d"], correct := 1 }] }

/-- A session on `twoStageProblem` that answered stage 1 wrong (chose
`1`, correct was `0`) and now sits at the final stage. -/
def twoStageMidEngine : Engine :=
  { mkEngine (fun _ => none) with
    state := .practicing, problems := [twoStageProblem],
    currentIndex := 0, twoStageIndex := 1, twoStageAnswers := [(1, false)] }

/-- C4 witness: answering the final stage correctly after a wrong first
stage transitions to `answered` and records overall `correct = false`:
the correct second stage does not outweigh the wrong first stage. -/
theorem twoStage_select_witness :
    (selectOption twoStageMidEngine 1).1.state = .answered ∧
    (selectOption twoStageMidEngine 1).1.answers =
      [{ problemId := "ts1", correct := false,
         payload := .twoStage [(1, false), (1, true)] }] := by
  have h := (twoStage_select_behavior twoStageMidEngine twoStageProblem
    { question := "s2", options := ["c", "d"], correct := 1 } 1
    rfl rfl rfl rfl).2 rfl
  refine ⟨h.1, ?_⟩
  rw [h.2.1]
  decide

/-- C10: in `practicing` with an empty transient ordering order — the
situation whenever the current question is not an ordering question,
since `#emitCurrentQuestion` populates the order only for ordering
questions — submit-ordering grades the empty permutation vacuously:
it appends an answer record with `correct = true` and transitions to
`answered`. -/
theorem submitOrdering_empty_vacuous (s : Engine) (p : Problem) (js : List ℕ)
    (hp : s.problems[s.currentIndex]? = some p) :
    (s.state = .practicing → s.answered = false → s.orderingOrder = [] →
      (submitOrdering s).1.state = .answered ∧
      (submitOrdering s).1.answers = s.answers ++
        [{ problemId := p.id, correct := true, payload := .ordering [] }]) ∧
    (problemType p ≠ "ordering" →
      (emitCurrentQuestion s js).1.orderingOrder = []) := by
  constructor
  · intro hst hans hord
    have hgrade : submitOrdering s = gradeOrdering s := by
      simp [submitOrdering, hst, hans]
    rw [hgrade]
    simp only [gradeOrdering, hp, setState]
    rw [if_neg (by rw [hst]; intro hcon; cases hcon)]
    rw [hst, hord]
    exact ⟨rfl, rfl⟩
  · intro hty
    simp [emitCurrentQuestion, hp, hty, resetQuestionState]

/-- The multiple-choice problem of the C10 witness. -/
def mcProblem : Problem := { id := "m1", correct := 0 }

/-- A practicing session showing `mcProblem` (so the transient ordering
order is empty). -/
def mcEngine : Engine :=
  { mkEngine (fun _ => none) with
    state := .practicing, problems := [mcProblem], currentIndex := 0 }

/-- C10 witness: submit-ordering on the multiple-choice question
appends a vacuously-correct ordering record and answers the question;
and showing the non-ordering question leaves the order empty. -/
theorem submitOrdering_empty_vacuous_witness :
    ((submitOrdering mcEngine).1.state = .answered ∧
      (submitOrdering mcEngine).1.answers = [] ++
        [{ problemId := "m1", correct := true, payload := .ordering [] }]) ∧
    (emitCurrentQuestion mcEngine []).1.orderingOrder = [] := by
  have h := submitOrdering_empty_vacuous mcEngine mcProblem [] rfl
  have h1 := h.1 rfl rfl rfl
  refine ⟨⟨h1.1, by rw [h1.2]; rfl⟩, h.2 (by simp [problemType, mcProblem])⟩

/-- Claim C8's alignment: the answer record at every position `i` of
the answer log carries the id of the question record at position `i`
of the session's question sequence. -/
def aligned (answers : List Answer) (problems : List Problem) : Prop :=
  ∀ i, i < answers.length →
    answers[i]?.map Answer.problemId = problems[i]?.map Problem.id

theorem aligned_nil (problems : List Problem) : aligned [] problems := by
  intro i hi
  simp at hi

theorem aligned_push {answers : List Answer} {problems : List Problem}
    {p : Problem} {a : Answer}
    (hal : aligned answers problems)
    (hp : problems[answers.length]? = some p)
    (hid : a.problemId = p.id) :
    aligned (answers ++ [a]) problems := by
  intro i hi
  rw [List.length_append] at hi
  simp only [List.length_singleton] at hi
  rcases Nat.lt_or_ge i answers.length with h | h
  · rw [List.getElem?_append_left h]
    exact hal i h
  · have hieq : i = answers.length := by omega
    subst hieq
    rw [List.getElem?_concat_length, hp]
    simp [hid]

/-- The inductive invariant behind claim C8: alignment plus the
bookkeeping between `currentIndex` and the answer log's length in each
state. -/
def Inv (s : Engine) : Prop :=
  aligned s.answers s.problems ∧
  (s.state = .idle → s.currentIndex = s.answers.length) ∧
  (s.state = .practicing → s.currentIndex = s.answers.length) ∧
  (s.state = .answered → s.answers.length = s.currentIndex + 1)

theorem Inv_of_fields {s t : Engine} (hinv : Inv s)
    (ha : t.answers = s.answers) (hp : t.problems = s.problems)
    (hst : t.state = s.state) (hci : t.currentIndex = s.currentIndex) :
    Inv t := by
  obtain ⟨hal, h1, h2, h3⟩ := hinv
  refine ⟨by rw [ha, hp]; exact hal, ?_, ?_, ?_⟩ <;> rw [hst, ha, hci] <;>
    assumption

theorem setState_fst (s : Engine) (t : QState) :
    (setState s t).1 = { s with state := t } := by
  unfold setState
  split
  · next h => rw [← h]
  · rfl

theorem emitCurrentQuestion_fields (s : Engine) (js : List ℕ) :
    (emitCurrentQuestion s js).1.answers = s.answers ∧
    (emitCurrentQuestion s js).1.problems = s.problems ∧
    (emitCurrentQuestion s js).1.state = s.state ∧
    (emitCurrentQuestion s js).1.currentIndex = s.currentIndex := by
  unfold emitCurrentQuestion resetQuestionState
  dsimp only
  split
  · exact ⟨rfl, rfl, rfl, rfl⟩
  · split
    · exact ⟨rfl, rfl, rfl, rfl⟩
    · exact ⟨rfl, rfl, rfl, rfl⟩

theorem Inv_emitCurrentQuestion {s : Engine} (hinv : Inv s) (js : List ℕ) :
    Inv (emitCurrentQuestion s js).1 := by
  obtain ⟨h1, h2, h3, h4⟩ := emitCurrentQuestion_fields s js
  exact Inv_of_fields hinv h1 h2 h3 h4

theorem Inv_completeOp {s : Engine} (hal : aligned s.answers s.problems) :
    Inv (completeOp s).1 := by
  unfold completeOp
  rw [setState_fst]
  exact ⟨hal, by intro h; simp at h, by intro h; simp at h, by intro h; simp at h⟩

/-- The engine reached by appending an answer for the current question
and transitioning to `answered` satisfies the invariant. -/
theorem Inv_answered_of_fields {s t : Engine} {p : Problem} {a : Answer}
    (hinv : Inv s) (hst : s.state = .practicing)
    (hp : s.problems[s.currentIndex]? = some p) (hid : a.problemId = p.id)
    (hta : t.answers = s.answers ++ [a]) (htp : t.problems = s.problems)
    (hts : t.state = .answered) (htc : t.currentIndex = s.currentIndex) :
    Inv t := by
  obtain ⟨hal, _, hprac, _⟩ := hinv
  have hlen : s.currentIndex = s.answers.length := hprac hst
  refine ⟨?_, ?_, ?_, ?_⟩
  · rw [hta, htp]
    exact aligned_push hal (by rw [← hlen]; exact hp) hid
  · intro h; rw [hts] at h; simp at h
  · intro h; rw [hts] at h; simp at h
  · intro _
    rw [hta, htc, List.length_append, hlen]
    simp

theorem Inv_loadProblems {s : Engine} (problems : List Problem)
    (maxProblems : ℕ) (pw : String → Option ℚ) (jsT : String → List ℕ)
    (ds : ℕ → ℚ) :
    Inv (loadProblems s problems maxProblems pw jsT ds).1 := by
  unfold loadProblems resetQuestionState
  dsimp only
  rw [setState_fst]
  exact ⟨aligned_nil _, fun _ => rfl, fun _ => rfl, by intro h; simp at h⟩

theorem Inv_reset {s : Engine} : Inv (reset s).1 := by
  unfold reset resetQuestionState
  dsimp only
  rw [setState_fst]
  exact ⟨aligned_nil _, fun _ => rfl, fun _ => rfl, by intro h; simp at h⟩

theorem Inv_start {s : Engine} (hinv : Inv s) (js : List ℕ) :
    Inv (start s js).1 := by
  unfold start
  dsimp only
  split
  · exact hinv
  · rw [setState_fst]
    refine Inv_emitCurrentQuestion ?_ js
    exact ⟨aligned_nil _, by intro h; simp at h, fun _ => rfl, by intro h; simp at h⟩

theorem Inv_next {s : Engine} (hinv : Inv s) (js : List ℕ) :
    Inv (next s js).1 := by
  unfold next
  dsimp only
  split
  · exact hinv
  · next hst =>
    have hst' : s.state = .answered := not_not.mp hst
    have hlen : s.answers.length = s.currentIndex + 1 := hinv.2.2.2 hst'
    split
    · rw [setState_fst]
      refine Inv_emitCurrentQuestion ?_ js
      refine ⟨hinv.1, by intro h; simp at h, ?_, by intro h; simp at h⟩
      intro _
      dsimp only
      omega
    · exact Inv_completeOp hinv.1

theorem Inv_retry {s : Engine} (pw : String → Option ℚ) (jsT : String → List ℕ)
    (ds : ℕ → ℚ) (js : List ℕ) :
    Inv (retry s pw jsT ds js).1 := by
  unfold retry resetQuestionState
  dsimp only
  rw [setState_fst]
  refine Inv_emitCurrentQuestion ?_ js
  exact ⟨aligned_nil _, by intro h; simp at h, fun _ => rfl, by intro h; simp at h⟩

theorem Inv_selectOption {s : Engine} (hinv : Inv s) (index : Int) :
    Inv (selectOption s index).1 := by
  unfold selectOption
  split
  · exact hinv
  · next hst =>
    have hst' : s.state = .practicing := not_not.mp hst
    split
    · exact hinv
    · next p hp =>
      split
      · unfold handleTwoStageSelect
        split
        · exact hinv
        · dsimp only
          split
          · exact Inv_of_fields hinv rfl rfl rfl rfl
          · rw [setState_fst]
            exact Inv_answered_of_fields hinv hst' hp rfl rfl rfl rfl rfl
      · unfold handleMultipleChoiceSelect
        split
        · exact hinv
        · dsimp only
          rw [setState_fst]
          exact Inv_answered_of_fields hinv hst' hp rfl rfl rfl rfl rfl

theorem Inv_toggleMultiSelect {s : Engine} (hinv : Inv s) (index : Int) :
    Inv (toggleMultiSelect s index).1 := by
  unfold toggleMultiSelect
  split
  · exact hinv
  · split
    · exact hinv
    · exact Inv_of_fields hinv rfl rfl rfl rfl

theorem Inv_submitMultiSelect {s : Engine} (hinv : Inv s) :
    Inv (submitMultiSelect s).1 := by
  unfold submitMultiSelect
  split
  · exact hinv
  · next hst =>
    split
    · exact hinv
    · have hst' : s.state = .practicing := not_not.mp hst
      dsimp only
      split
      · exact Inv_of_fields hinv rfl rfl rfl rfl
      · next p hp =>
        rw [setState_fst]
        exact Inv_answered_of_fields hinv hst' hp rfl rfl rfl rfl rfl

theorem Inv_submitNumeric {s : Engine} (hinv : Inv s) (uv : Option ℚ) :
    Inv (submitNumeric s uv).1 := by
  unfold submitNumeric
  split
  · exact hinv
  · next hst =>
    split
    · exact hinv
    · have hst' : s.state = .practicing := not_not.mp hst
      dsimp only
      split
      · exact Inv_of_fields hinv rfl rfl rfl rfl
      · next p hp =>
        rw [setState_fst]
        exact Inv_answered_of_fields hinv hst' hp rfl rfl rfl rfl rfl

theorem Inv_moveOrderingItem {s : Engine} (hinv : Inv s)
    (fromIndex toIndex : Int) :
    Inv (moveOrderingItem s fromIndex toIndex).1 := by
  unfold moveOrderingItem
  split
  · exact hinv
  · split
    · exact hinv
    · split
      · exact hinv
      · split
        · exact hinv
        · exact Inv_of_fields hinv rfl rfl rfl rfl

theorem Inv_submitOrdering {s : Engine} (hinv : Inv s) :
    Inv (submitOrdering s).1 := by
  unfold submitOrdering
  split
  · exact hinv
  · next hst =>
    split
    · exact hinv
    · have hst' : s.state = .practicing := not_not.mp hst
      unfold gradeOrdering
      dsimp only
      split
      · exact Inv_of_fields hinv rfl rfl rfl rfl
      · next p hp =>
        rw [setState_fst]
        exact Inv_answered_of_fields hinv hst' hp rfl rfl rfl rfl rfl

theorem Inv_skip {s : Engine} (hinv : Inv s) (js : List ℕ) :
    Inv (skip s js).1 := by
  unfold skip
  split
  · exact hinv
  · next hst =>
    have hst' : s.state = .practicing := not_not.mp hst
    split
    · exact hinv
    · next p hp =>
      have hal : aligned
          (s.answers ++ [{ problemId := p.id, correct := false, skipped := true }])
          s.problems :=
        aligned_push hinv.1 (by rw [← hinv.2.2.1 hst']; exact hp) rfl
      dsimp only
      split
      · refine Inv_emitCurrentQuestion ?_ js
        refine ⟨hal, ?_, ?_, ?_⟩
        · intro h; dsimp at h; rw [hst'] at h; simp at h
        · intro _
          dsimp only
          rw [hinv.2.2.1 hst', List.length_append]
          simp
        · intro h; dsimp at h; rw [hst'] at h; simp at h
      · exact Inv_completeOp hal

theorem Inv_timeoutOp {s : Engine} (hinv : Inv s) (js : List ℕ) :
    Inv (timeoutOp s js).1 := by
  unfold timeoutOp
  split
  · exact hinv
  · next hst =>
    have hst' : s.state = .practicing := not_not.mp hst
    split
    · exact hinv
    · next p hp =>
      have hal : aligned
          (s.answers ++ [{ problemId := p.id, correct := false, timedOut := true }])
          s.problems :=
        aligned_push hinv.1 (by rw [← hinv.2.2.1 hst']; exact hp) rfl
      dsimp only
      split
      · refine Inv_emitCurrentQuestion ?_ js
        refine ⟨hal, ?_, ?_, ?_⟩
        · intro h; dsimp at h; rw [hst'] at h; simp at h
        · intro _
          dsimp only
          rw [hinv.2.2.1 hst', List.length_append]
          simp
        · intro h; dsimp at h; rw [hst'] at h; simp at h
      · exact Inv_completeOp hal

theorem Inv_resume {s : Engine} (hinv : Inv s) (js : List ℕ) :
    Inv (resume s js).1 := by
  unfold resume
  split
  · exact hinv
  · next hst =>
    have hst' : s.state = .idle := not_not.mp hst
    split
    · exact hinv
    · split
      · dsimp only
        rw [setState_fst]
        exact Inv_completeOp hinv.1
      · dsimp only
        rw [setState_fst]
        refine Inv_emitCurrentQuestion ?_ js
        refine ⟨hinv.1, by intro h; simp at h, ?_, by intro h; simp at h⟩
        intro _
        exact hinv.2.1 hst'

theorem Inv_restoreSession {s t : Engine} (hinv : Inv t) :
    Inv (restoreSession s (getSnapshot t)).1 := by
  unfold restoreSession getSnapshot resetQuestionState
  dsimp only
  rw [setState_fst]
  exact ⟨hinv.1, fun _ => rfl, fun _ => rfl, by intro h; simp at h⟩

/-- One public mutating call of the engine, its arguments and random
outcomes chosen arbitrarily. -/
inductive Step : Engine → Engine → Prop where
  | loadStep (s : Engine) (problems : List Problem) (maxProblems : ℕ)
      (pw : String → Option ℚ) (jsT : String → List ℕ) (ds : ℕ → ℚ) :
      Step s (loadProblems s problems maxProblems pw jsT ds).1
  | startStep (s : Engine) (js : List ℕ) : Step s (start s js).1
  | nextStep (s : Engine) (js : List ℕ) : Step s (next s js).1
  | retryStep (s : Engine) (pw : String → Option ℚ) (jsT : String → List ℕ)
      (ds : ℕ → ℚ) (js : List ℕ) : Step s (retry s pw jsT ds js).1
  | resetStep (s : Engine) : Step s (reset s).1
  | selectStep (s : Engine) (index : Int) : Step s (selectOption s index).1
  | toggleStep (s : Engine) (index : Int) : Step s (toggleMultiSelect s index).1
  | multiStep (s : Engine) : Step s (submitMultiSelect s).1
  | numericStep (s : Engine) (userValue : Option ℚ) :
      Step s (submitNumeric s userValue).1
  | moveStep (s : Engine) (fromIndex toIndex : Int) :
      Step s (moveOrderingItem s fromIndex toIndex).1
  | orderingStep (s : Engine) : Step s (submitOrdering s).1
  | skipStep (s : Engine) (js : List ℕ) : Step s (skip s js).1
  | timeoutStep (s : Engine) (js : List ℕ) : Step s (timeoutOp s js).1
  | resumeStep (s : Engine) (js : List ℕ) : Step s (resume s js).1

/-- The session states reachable through the engine's public interface:
a fresh engine, any public call, or restoring a snapshot that was taken
from a reachable state. -/
inductive Reachable : Engine → Prop where
  | init (tw : String → Option ℚ) : Reachable (mkEngine tw)
  | step {s t : Engine} : Reachable s → Step s t → Reachable t
  | restored {s t : Engine} : Reachable s → Reachable t →
      Reachable (restoreSession s (getSnapshot t)).1

theorem Inv_mkEngine (tw : String → Option ℚ) : Inv (mkEngine tw) :=
  ⟨aligned_nil _, fun _ => rfl, by intro h; simp [mkEngine] at h,
    by intro h; simp [mkEngine] at h⟩

theorem Step_preserves_Inv {s t : Engine} (h : Step s t) (hinv : Inv s) :
    Inv t := by
  cases h with
  | loadStep problems maxProblems pw jsT ds =>
    exact Inv_loadProblems problems maxProblems pw jsT ds
  | startStep js => exact Inv_start hinv js
  | nextStep js => exact Inv_next hinv js
  | retryStep pw jsT ds js => exact Inv_retry pw jsT ds js
  | resetStep => exact Inv_reset
  | selectStep index => exact Inv_selectOption hinv index
  | toggleStep index => exact Inv_toggleMultiSelect hinv index
  | multiStep => exact Inv_submitMultiSelect hinv
  | numericStep userValue => exact Inv_submitNumeric hinv userValue
  | moveStep fromIndex toIndex => exact Inv_moveOrderingItem hinv fromIndex toIndex
  | orderingStep => exact Inv_submitOrdering hinv
  | skipStep js => exact Inv_skip hinv js
  | timeoutStep js => exact Inv_timeoutOp hinv js
  | resumeStep js => exact Inv_resume hinv js

theorem Reachable_Inv {s : Engine} (h : Reachable s) : Inv s := by
  induction h with
  | init tw => exact Inv_mkEngine tw
  | step _ hstep ih => exact Step_preserves_Inv hstep ih
  | restored _ _ _ iht => exact Inv_restoreSession iht

/-- C8: in every reachable session state the answer log and the
session's fixed question sequence stay positionally aligned — for every
`i` below the answer log's length, the answer record at position `i`
carries the id of the question record at position `i`. -/
theorem reachable_answers_aligned (s : Engine) (h : Reachable s) :
    ∀ i, i < s.answers.length →
      s.answers[i]?.map Answer.problemId = s.problems[i]?.map Problem.id :=
  (Reachable_Inv h).1

theorem weightedShuffle_mc :
    weightedShuffle [mcProblem] (mkEngine fun _ => none).typeWeights
      (fun _ => none) (fun _ => []) (fun _ => 0) = [mcProblem] := by
  have h1 : weightedShuffle [mcProblem] (mkEngine fun _ => none).typeWeights
      (fun _ => none) (fun _ => []) (fun _ => 0) =
      weightedShuffleLoop (fun _ => none) (fun _ => 0) 1 0
        [{ type := "multiple-choice", items := [mcProblem], weight := 1 }] [] := rfl
  rw [h1]
  norm_num [weightedShuffleLoop, totalWeightOf, selectQueue, pickedIndexOf,
    pickIndex, lookupProblemWeight]

/-- The engine after `loadProblems([mcProblem])` on a fresh instance,
with all random draws `0`. -/
def loadedEngine : Engine :=
  (loadProblems (mkEngine fun _ => none) [mcProblem] 0 (fun _ => none)
    (fun _ => []) (fun _ => 0)).1

theorem loadedEngine_eq :
    loadedEngine = { mkEngine (fun _ => none) with
      allProblems := [mcProblem], problems := [mcProblem] } := by
  unfold loadedEngine loadProblems resetQuestionState
  dsimp only
  rw [setState_fst, weightedShuffle_mc]
  rfl

/-- The engine after additionally starting and answering the question
with option `0`. -/
def answeredEngine : Engine :=
  (selectOption (start loadedEngine []).1 0).1

theorem answeredEngine_eq :
    answeredEngine = { mkEngine (fun _ => none) with
      allProblems := [mcProblem], problems := [mcProblem],
      state := .answered, answered := true,
      answers := [{ problemId := "m1", correct := true,
                    payload := .choice 0 }] } := by
  have h2 : (start loadedEngine []).1 = { mkEngine (fun _ => none) with
      allProblems := [mcProblem], problems := [mcProblem],
      state := .practicing } := by
    rw [show start loadedEngine [] = start ({ mkEngine (fun _ => none) with
      allProblems := [mcProblem], problems := [mcProblem] }) [] from by
        rw [loadedEngine_eq]]
    rfl
  unfold answeredEngine
  rw [h2]
  rfl

/-- C8 witness: after loading one question, starting, and answering
it — a concrete reachable state — the single answer record's id
matches the single question's id. -/
theorem reachable_answers_aligned_witness :
    Reachable answeredEngine ∧
    answeredEngine.answers[0]?.map Answer.problemId =
      answeredEngine.problems[0]?.map Problem.id := by
  have hreach : Reachable answeredEngine :=
    Reachable.step (Reachable.step (Reachable.step
      (Reachable.init fun _ => none)
      (Step.loadStep _ [mcProblem] 0 (fun _ => none) (fun _ => []) (fun _ => 0)))
      (Step.startStep _ []))
      (Step.selectStep _ 0)
  refine ⟨hreach, reachable_answers_aligned _ hreach 0 ?_⟩
  rw [answeredEngine_eq]
  simp

end OpenQuizzer
